import Mathlib

/-!
Verification of the `ssv-nounce-counter` repository core
(`nonce_counter/nonce_counter.go` and the `ValidatorAddedEvent` decoder)
against its natural-language specification.

The Go code is shallowly embedded: machine integers (`int64`, `uint64`,
`*big.Int`) become `Int`/`Nat`, the Go map `map[string]uint64` becomes an
association list, fallible constructors return an explicit result type, and
the concurrent batch processor `FindNonces` is modelled as an interleaved
transition system over explicit worker program counters.

The membership test of `incrementNonce` compares configured address strings
with `common.Address.Hex()`, go-ethereum's EIP-55 checksummed rendering,
which requires Keccak-256; both are implemented below and validated against
the concrete checksummed addresses pinned by the repository's own test file
(`nonce_counter_test.go`).
-/

set_option maxRecDepth 100000

namespace NounceCounter

/- ===== Hex and byte primitives (go-ethereum `common`/`hexutil` helpers) ===== -/

/-- Value of a hexadecimal digit character, `none` for a non-hex character.
Models the per-character behaviour of Go's `encoding/hex` decoding
(accepting both lower and upper case). -/
def hexVal (c : Char) : Option Nat :=
  if '0' ≤ c ∧ c ≤ '9' then some (c.toNat - '0'.toNat)
  else if 'a' ≤ c ∧ c ≤ 'f' then some (c.toNat - 'a'.toNat + 10)
  else if 'A' ≤ c ∧ c ≤ 'F' then some (c.toNat - 'A'.toNat + 10)
  else none

/-- Decode pairs of hex characters into bytes, stopping at the first invalid
pair, as Go's `hex.DecodeString` (whose partial output `Hex2Bytes` keeps)
does. -/
def hexPairsToBytes : List Char → List Nat
  | c1 :: c2 :: rest =>
    match hexVal c1, hexVal c2 with
    | some a, some b => (16 * a + b) :: hexPairsToBytes rest
    | _, _ => []
  | _ => []

/-- Lowercase hex rendering of a byte list, without a `0x` prefix. -/
def bytesToHexChars (bs : List Nat) : List Char :=
  bs.foldr (fun b acc => Nat.digitChar (b / 16 % 16) :: Nat.digitChar (b % 16) :: acc) []

/-- Rendering with the `0x` prefix, as go-ethereum's `hexutil.Encode`
(used by `Hash.Hex()` for log topics). -/
def bytesHex (bs : List Nat) : String :=
  "0x" ++ String.mk (bytesToHexChars bs)

/- ===== Keccak-256 (legacy Keccak as used by Ethereum, 64-bit lanes as Nat) ===== -/

/-- Bitwise XOR of two 64-bit lanes represented as `Nat` below `2 ^ 64`. -/
def xor64 (a b : Nat) : Nat := Nat.xor a b

/-- Bitwise complement of a 64-bit lane `a < 2 ^ 64`. -/
def not64 (a : Nat) : Nat := (2 ^ 64 - 1) - a

/-- Left rotation of a 64-bit lane by `n < 64` bits. -/
def rotl64 (a n : Nat) : Nat := (a * 2 ^ n + a / 2 ^ (64 - n)) % 2 ^ 64

/-- Keccak-f[1600] round constants (decimal values of the 24 standard
64-bit constants). -/
def keccakRC : List Nat :=
  [1, 32898, 9223372036854808714,
   9223372039002292224, 32907, 2147483649,
   9223372039002292353, 9223372036854808585, 138,
   136, 2147516425, 2147483658,
   2147516555, 9223372036854775947, 9223372036854808713,
   9223372036854808579, 9223372036854808578, 9223372036854775936,
   32778, 9223372039002259466, 9223372039002292353,
   9223372036854808704, 2147483649, 9223372039002292232]

/-- Rotation offsets of the ρ step, indexed by `x + 5 * y`, generated from
their defining recurrence: walking the π orbit from lane (1, 0), the lane
visited at step `t` rotates by `(t + 1) (t + 2) / 2 mod 64`, and lane
(0, 0) does not rotate. -/
def rotOffsets : List Nat :=
  ((List.range 24).foldl
    (fun (st : List Nat × (Nat × Nat)) t =>
      let x := st.2.1
      let y := st.2.2
      (st.1.set (x + 5 * y) ((t + 1) * (t + 2) / 2 % 64), (y, (2 * x + 3 * y) % 5)))
    (List.replicate 25 0, (1, 0))).1

/-- θ step of Keccak-f. The state is a list of 25 lanes, lane `(x, y)` at
index `x + 5 * y`. -/
def theta (st : List Nat) : List Nat :=
  let c := fun x => xor64 (st.getD x 0) (xor64 (st.getD (x + 5) 0)
    (xor64 (st.getD (x + 10) 0) (xor64 (st.getD (x + 15) 0) (st.getD (x + 20) 0))))
  let c0 := c 0
  let c1 := c 1
  let c2 := c 2
  let c3 := c 3
  let c4 := c 4
  let cl := [c0, c1, c2, c3, c4]
  let d := fun x => xor64 (cl.getD ((x + 4) % 5) 0) (rotl64 (cl.getD ((x + 1) % 5) 0) 1)
  let d0 := d 0
  let d1 := d 1
  let d2 := d 2
  let d3 := d 3
  let d4 := d 4
  let dl := [d0, d1, d2, d3, d4]
  (List.range 25).map fun i => xor64 (st.getD i 0) (dl.getD (i % 5) 0)

/-- Combined ρ and π steps: lane `(x, y)` of the result is lane
`((x + 3y) % 5, x)` of the input rotated by its ρ offset. -/
def rhoPi (st : List Nat) : List Nat :=
  (List.range 25).map fun i =>
    let x := i % 5
    let y := i / 5
    let sx := (x + 3 * y) % 5
    let sy := x
    rotl64 (st.getD (sx + 5 * sy) 0) (rotOffsets.getD (sx + 5 * sy) 0)

/-- χ step. -/
def chi (st : List Nat) : List Nat :=
  (List.range 25).map fun i =>
    let x := i % 5
    let y := i / 5
    xor64 (st.getD i 0)
      (Nat.land (not64 (st.getD ((x + 1) % 5 + 5 * y) 0)) (st.getD ((x + 2) % 5 + 5 * y) 0))

/-- ι step for round `r`. -/
def iotaStep (r : Nat) (st : List Nat) : List Nat :=
  st.set 0 (xor64 (st.getD 0 0) (keccakRC.getD r 0))

/-- Keccak-f[1600] permutation: 24 rounds of θ, ρ, π, χ, ι. -/
def keccakF (st : List Nat) : List Nat :=
  (List.range 24).foldl (fun s r => iotaStep r (chi (rhoPi (theta s)))) st

/-- Little-endian 64-bit lane from (up to) 8 bytes. -/
def laneOfBytes (bs : List Nat) : Nat :=
  bs.foldr (fun b acc => acc * 256 + b) 0

/-- XOR a 136-byte rate block into the first 17 lanes of the state. -/
def absorbBlock (st block : List Nat) : List Nat :=
  (List.range 25).map fun i =>
    if i < 17 then xor64 (st.getD i 0) (laneOfBytes ((block.drop (8 * i)).take 8))
    else st.getD i 0

/-- Multi-rate padding `pad10*1` with the legacy Keccak domain byte `0x01`,
for rate 136 (Keccak-256). -/
def keccakPad (len : Nat) : List Nat :=
  let q := 136 - len % 136
  if q = 1 then [0x81]
  else 0x01 :: List.replicate (q - 2) 0 ++ [0x80]

/-- Keccak-256 of a byte list (bytes are `Nat` values below 256), as used by
Ethereum (`sha3.NewLegacyKeccak256`). Returns the 32 hash bytes. -/
def keccak256 (msg : List Nat) : List Nat :=
  let padded := msg ++ keccakPad msg.length
  let nblocks := padded.length / 136
  let blocks := (List.range nblocks).map fun i => ((padded.drop (136 * i)).take 136)
  let final := blocks.foldl (fun st block => keccakF (absorbBlock st block))
    (List.replicate 25 0)
  (List.range 32).map fun m => final.getD (m / 8) 0 / 256 ^ (m % 8) % 256

/- ===== go-ethereum `common.Address` ===== -/

/-- Model of go-ethereum's `common.Address`: 20 bytes. -/
structure Address where
  bytes : List Nat
deriving DecidableEq

/-- Model of `common.BytesToAddress` / `Address.SetBytes`: keep the last 20
bytes, left-padding with zeros. -/
def bytesToAddress (bs : List Nat) : Address :=
  let b := if bs.length > 20 then bs.drop (bs.length - 20) else bs
  ⟨List.replicate (20 - b.length) 0 ++ b⟩

/-- Model of `common.HexToAddress`: strip a `0x`/`0X` prefix, left-pad an odd
hex string with one `0`, decode case-insensitively, keep the last 20 bytes. -/
def hexToAddress (s : String) : Address :=
  let cs := s.data
  let cs := match cs with
    | '0' :: 'x' :: rest => rest
    | '0' :: 'X' :: rest => rest
    | other => other
  let cs := if cs.length % 2 = 1 then '0' :: cs else cs
  bytesToAddress (hexPairsToBytes cs)

/-- Model of `common.Address.Hex()`: the EIP-55 checksummed rendering. The
lowercase hex digits of the address are uppercased exactly where the
corresponding nibble of the Keccak-256 hash of the 40 lowercase hex
characters is at least 8 (go-ethereum `Address.checksumHex`). -/
def Address.hex (a : Address) : String :=
  let low := bytesToHexChars a.bytes
  let h := keccak256 (low.map Char.toNat)
  let checked := (List.range low.length).map fun i =>
    let c := low.getD i '0'
    let hashByte := h.getD (i / 2) 0
    let nib := if i % 2 = 0 then hashByte / 16 else hashByte % 16
    if c.toNat > '9'.toNat ∧ nib > 7 then Char.ofNat (c.toNat - 32) else c
  "0x" ++ String.mk checked

/- ===== Data model of `nonce_counter.go` ===== -/

/-- Model of the `Config` struct (`nonce_counter.go`, lines 34-42). `int64`
fields become `Int`. -/
structure Config where
  Concurrency : Int
  ContractAddress : String
  ContractABI : String
  StartBlock : Int
  EventName : String
  Addresses : List String
  BlockBatchSize : Int
deriving DecidableEq

/-- Model of `Config.Validate` (lines 45-69): the first violated constraint,
in source order, yields its message; a fully valid configuration yields
`none`. -/
def Config.Validate (ncc : Config) : Option String :=
  if ncc.Concurrency ≤ 0 then some "concurrency must be greater than 0"
  else if ncc.ContractAddress = "" then some "contract address must be provided"
  else if ncc.ContractABI = "" then some "contract ABI must be provided"
  else if ncc.StartBlock < 0 then some "start block must be greater than or equal to 0"
  else if ncc.EventName = "" then some "event name must be provided"
  else if ncc.Addresses.length = 0 then some "addresses must be provided"
  else if ncc.BlockBatchSize ≤ 0 then some "block batch size must be greater than 0"
  else none

/-- Model of the `NonceCounter` struct (lines 22-31). The parsed contract
ABI is an opaque value of a type parameter `A` (ABI parsing lives in the
external go-ethereum library); the `sync.Mutex` field has no functional
content and is modelled in the transition system of `FindNonces` instead.
The Go map `addressToNonce` is an association list. -/
structure NonceCounter (A : Type) where
  contractAddress : String
  eventName : String
  addresses : List String
  contractAbi : A
  addressToNonce : List (String × Nat)
  blockBatchSize : Int
  concurrency : Int
deriving DecidableEq

/-- Result of `NewNonceCounter`: a constructed counter, a returned error
(`return nil, err`), or a process abort (`log.Fatalf`, which never
returns). -/
inductive NCResult (A : Type) where
  | ok (nc : NonceCounter A)
  | err (msg : String)
  | fatal (msg : String)
deriving DecidableEq

/-- Model of `NewNonceCounter` (lines 73-98). The external
`abi.JSON(strings.NewReader ...)` parser is a parameter `abiJSON`; its
failure branch calls `log.Fatalf`, modelled as `NCResult.fatal`. The map is
initialized with every configured address bound to 0. -/
def NewNonceCounter {A : Type} (abiJSON : String → Option A) (config : Config) :
    NCResult A :=
  match config.Validate with
  | some e => NCResult.err e
  | none =>
    match abiJSON config.ContractABI with
    | none => NCResult.fatal "failed to parse contract ABI"
    | some contractAbi =>
      NCResult.ok
        { contractAddress := config.ContractAddress
          eventName := config.EventName
          contractAbi := contractAbi
          addresses := config.Addresses
          blockBatchSize := config.BlockBatchSize
          addressToNonce := config.Addresses.map (fun address => (address, 0))
          concurrency := config.Concurrency }

/- ===== Logs and event decoding ===== -/

/-- Model of `types.Log`: topics are 32-byte hashes, data is a byte list. -/
structure Log where
  topics : List (List Nat)
  data : List Nat
deriving DecidableEq

/-- Model of `ValidatorAddedEvent` (`validator_added_event.go`). The payload
fields (`OperatorIds`, `PublicKey`, `Shares`, `Cluster`) are filled by the
external ABI unpacker and never read by the counting core, so only the
`Owner` field is modelled. -/
structure ValidatorAddedEvent where
  Owner : Address
deriving DecidableEq

/-- Model of `ValidatorAddedEvent.Parse`. The external
`contractABI.UnpackIntoInterface` call (go-ethereum) is abstracted by the
`unpackOk` parameter deciding decode success; on success the owner is
rebuilt from topic 1 exactly as the source does:
`common.HexToAddress(vLog.Topics[1].Hex())`. The source indexes
`Topics[1]` unconditionally; the model is only applied to logs with at
least two topics and pads with a zero hash otherwise. -/
def parseEvent (unpackOk : Log → Bool) (vLog : Log) : Option ValidatorAddedEvent :=
  if unpackOk vLog then
    some ⟨hexToAddress (bytesHex (vLog.topics.getD 1 (List.replicate 32 0)))⟩
  else none

/- ===== Counter store ===== -/

/-- Lookup in the association-list model of the Go map. -/
def mlookup : List (String × Nat) → String → Option Nat
  | [], _ => none
  | (k, v) :: rest, key => if k = key then some v else mlookup rest key

/-- Model of the Go statement `m[key]++`: a missing key reads as 0 and the
incremented value is stored (inserting the key when absent). -/
def mapIncr : List (String × Nat) → String → List (String × Nat)
  | [], key => [(key, 1)]
  | (k, v) :: rest, key =>
    if k = key then (k, v + 1) :: rest else (k, v) :: mapIncr rest key

/-- Whether an address has an entry in the store. -/
def hasKey (m : List (String × Nat)) (k : String) : Bool :=
  (mlookup m k).isSome

/-- Model of `incrementNonce` (lines 212-222): if the checksummed hex of the
event owner is not contained in the configured address list, report no
change; otherwise increment that address's count under the mutex and report
a change. Returns the updated counter and the report. -/
def incrementNonce {A : Type} (nc : NonceCounter A) (vae : ValidatorAddedEvent) :
    NonceCounter A × Bool :=
  if (nc.addresses.contains vae.Owner.hex) = false then (nc, false)
  else ({ nc with addressToNonce := mapIncr nc.addressToNonce vae.Owner.hex }, true)

/-- Model of `printNonces` (lines 225-235): it takes the mutex, reads every
entry of the store for reporting and mutates nothing; the snapshot it
prints is the store itself. -/
def printNonces {A : Type} (nc : NonceCounter A) : List (String × Nat) :=
  nc.addressToNonce

/-- Folding a list of decoded events through `incrementNonce`, keeping the
counter state. -/
def applyEvents {A : Type} (nc : NonceCounter A) (vaes : List ValidatorAddedEvent) :
    NonceCounter A :=
  vaes.foldl (fun st vae => (incrementNonce st vae).1) nc

/- ===== Block range scheduler ===== -/

/-- Model of `ethereum.FilterQuery` as far as `prepareQuery` fills it. -/
structure FilterQuery where
  FromBlock : Int
  ToBlock : Int
  Addresses : List Address
deriving DecidableEq

/-- Model of `prepareQuery` (lines 187-209): `endBlock = currentBlock +
blockBatchSize`, clamped to the header's number when it reaches it;
`currentBlock` is then clamped down to `endBlock` when it exceeds it.
`*big.Int` values are `Int`. -/
def prepareQuery {A : Type} (nc : NonceCounter A) (headerNumber currentBlock : Int) :
    FilterQuery :=
  let latestBlock := headerNumber
  let endBlock0 := currentBlock + nc.blockBatchSize
  let endBlock := if endBlock0 ≥ latestBlock then latestBlock else endBlock0
  let fromBlock := if currentBlock > endBlock then endBlock else currentBlock
  { FromBlock := fromBlock
    ToBlock := endBlock
    Addresses := [hexToAddress nc.contractAddress] }

/- ===== Sequential denotation of the batch processor ===== -/

/-- Per-log step of `FindNonces` (goroutine body, lines 161-179): decode the
log, silently skipping it on failure; otherwise run `incrementNonce` and
absorb the report into the batch flag. There is no error channel and no
retry: the function is total and returns only the updated state. -/
def processLog {A : Type} (unpackOk : Log → Bool) (st : NonceCounter A × Bool)
    (vLog : Log) : NonceCounter A × Bool :=
  match parseEvent unpackOk vLog with
  | none => st
  | some event =>
    let r := incrementNonce st.1 event
    if r.2 then (r.1, true) else (r.1, st.2)

/-- Batch denotation of `FindNonces` (lines 146-184) under the
mutex-serialized semantics: the flag starts false and every log of the
batch is processed. The order of the fold is immaterial for the final
counts (increments commute); the interleaved execution itself is modelled
by `WStep` below. -/
def FindNoncesSeq {A : Type} (unpackOk : Log → Bool) (nc : NonceCounter A)
    (logs : List Log) : NonceCounter A × Bool :=
  logs.foldl (processLog unpackOk) (nc, false)

/- ===== Interleaved transition system for `FindNonces` (lines 146-184) ===== -/

/-- Program counter of one spawned worker goroutine of `FindNonces`. The
shared-state accesses of the goroutine body are split into separate atomic
steps: the mutex-guarded map increment, and the unguarded read
(`if !foundAddress`) and write (`foundAddress = true`) of the shared batch
flag. Decoding and the tracked-address test are thread-local (they read
only immutable data) and are folded into the first step. -/
inductive WPhase where
  | toParse (vLog : Log)
  | toLock (key : String)
  | toIncr (key : String)
  | toUnlock (key : String)
  | toReadFlag
  | toWriteFlag
  | done
deriving DecidableEq

/-- Immutable data the workers of one `FindNonces` batch share: the tracked
address list and the external decode capability. -/
structure SysParams where
  addresses : List String
  unpackOk : Log → Bool

/-- Shared state of one `FindNonces` batch: the logs the range loop has not
yet dispatched, the spawned workers, the free semaphore slots, the mutex,
the counter store, and the plain shared `foundAddress` flag. -/
structure SysState where
  pending : List Log
  workers : List WPhase
  sem : Nat
  mutexFree : Bool
  counts : List (String × Nat)
  found : Bool
deriving DecidableEq

/-- Interleaved small-step semantics of `FindNonces`. The dispatching loop
acquires a semaphore slot and spawns a goroutine per log; each worker
decodes, tests membership, increments under the mutex, and finally reads
and (when it saw `false`) writes the shared flag without any
synchronization. A worker releases its slot when it finishes. -/
inductive WStep (P : SysParams) : SysState → SysState → Prop
  | spawn (s : SysState) (vLog : Log) (rest : List Log) :
      s.pending = vLog :: rest → 0 < s.sem →
      WStep P s { s with pending := rest, sem := s.sem - 1,
                         workers := s.workers ++ [WPhase.toParse vLog] }
  | parseFail (s : SysState) (i : Nat) (vLog : Log) :
      s.workers.get? i = some (WPhase.toParse vLog) →
      parseEvent P.unpackOk vLog = none →
      WStep P s { s with workers := s.workers.set i WPhase.done, sem := s.sem + 1 }
  | parseUntracked (s : SysState) (i : Nat) (vLog : Log) (ev : ValidatorAddedEvent) :
      s.workers.get? i = some (WPhase.toParse vLog) →
      parseEvent P.unpackOk vLog = some ev →
      P.addresses.contains ev.Owner.hex = false →
      WStep P s { s with workers := s.workers.set i WPhase.done, sem := s.sem + 1 }
  | parseTracked (s : SysState) (i : Nat) (vLog : Log) (ev : ValidatorAddedEvent)
      (key : String) :
      s.workers.get? i = some (WPhase.toParse vLog) →
      parseEvent P.unpackOk vLog = some ev →
      key = ev.Owner.hex →
      P.addresses.contains key = true →
      WStep P s { s with workers := s.workers.set i (WPhase.toLock key) }
  | lock (s : SysState) (i : Nat) (key : String) :
      s.workers.get? i = some (WPhase.toLock key) → s.mutexFree = true →
      WStep P s { s with workers := s.workers.set i (WPhase.toIncr key),
                         mutexFree := false }
  | incr (s : SysState) (i : Nat) (key : String) :
      s.workers.get? i = some (WPhase.toIncr key) →
      WStep P s { s with workers := s.workers.set i (WPhase.toUnlock key),
                         counts := mapIncr s.counts key }
  | unlock (s : SysState) (i : Nat) (key : String) :
      s.workers.get? i = some (WPhase.toUnlock key) →
      WStep P s { s with workers := s.workers.set i WPhase.toReadFlag,
                         mutexFree := true }
  | readFlagSet (s : SysState) (i : Nat) :
      s.workers.get? i = some WPhase.toReadFlag → s.found = true →
      WStep P s { s with workers := s.workers.set i WPhase.done, sem := s.sem + 1 }
  | readFlagClear (s : SysState) (i : Nat) :
      s.workers.get? i = some WPhase.toReadFlag → s.found = false →
      WStep P s { s with workers := s.workers.set i WPhase.toWriteFlag }
  | writeFlag (s : SysState) (i : Nat) :
      s.workers.get? i = some WPhase.toWriteFlag →
      WStep P s { s with workers := s.workers.set i WPhase.done, sem := s.sem + 1,
                         found := true }

/-- Initial state of a `FindNonces` batch: no worker spawned, all
`concurrency` semaphore slots free, mutex free, flag `false`. -/
def initState (counts : List (String × Nat)) (logs : List Log) (concurrency : Nat) :
    SysState :=
  { pending := logs, workers := [], sem := concurrency, mutexFree := true,
    counts := counts, found := false }

/-- Write-write data race on the shared `foundAddress` flag: two distinct
workers are both poised to execute the unguarded `foundAddress = true`. -/
def racy (s : SysState) : Prop :=
  ∃ i j, i ≠ j ∧ s.workers.get? i = some WPhase.toWriteFlag ∧
    s.workers.get? j = some WPhase.toWriteFlag

/- ===== Definitions written from the specification's words ===== -/

/-- Modelled from the spec: scheduler algorithm of section 4.2, "tentative
end = cursor + batch_size; if tentative end ≥ tip, clamp end = tip; if the
(possibly clamped) end is still less than cursor ... clamp cursor down to
end as well". Returns (from, to). Refinement target for the claim about
`prepareQuery`. -/
def schedulerSpec (cursor tip batchSize : Int) : Int × Int :=
  let tentative := cursor + batchSize
  let e := if tentative ≥ tip then tip else tentative
  let f := if e < cursor then e else cursor
  (f, e)

/-- Modelled from the spec: validator contract of section 4.1, "fails with a
descriptive error on the first violated constraint it encounters, in this
order of check: concurrency > 0; contract address non-empty; event schema
non-empty; start block ≥ 0; event name non-empty; tracked address list
non-empty; batch size > 0". Refinement target for the claim about
`Config.Validate`. -/
def firstViolation (c : Config) : Option String :=
  if ¬ (c.Concurrency > 0) then some "concurrency must be greater than 0"
  else if ¬ (c.ContractAddress ≠ "") then some "contract address must be provided"
  else if ¬ (c.ContractABI ≠ "") then some "contract ABI must be provided"
  else if ¬ (c.StartBlock ≥ 0) then some "start block must be greater than or equal to 0"
  else if ¬ (c.EventName ≠ "") then some "event name must be provided"
  else if ¬ (c.Addresses ≠ []) then some "addresses must be provided"
  else if ¬ (c.BlockBatchSize > 0) then some "block batch size must be greater than 0"
  else none

/-- Case-insensitive equality of two hex spellings: same length and equal
after lowercasing every character, the normalization the spec's
"case-insensitive hex" membership demands. -/
def eqIgnoreCase (s t : String) : Bool :=
  s.data.map Char.toLower = t.data.map Char.toLower

/- ===== Concrete fixtures (addresses and configs of `nonce_counter_test.go`) ===== -/

/-- Byte form of the tracked address used by the repository's
`TestNonceCounterIncrementNonce` first case. -/
def ownerA : Address :=
  ⟨[0xab, 0xcd, 0xef, 0x12, 0x34, 0x56, 0x78, 0x90, 0xab, 0xcd,
    0xef, 0x12, 0x34, 0x56, 0x78, 0x90, 0xab, 0xcd, 0xef, 0x12]⟩

/-- EIP-55 checksummed spelling of `ownerA`, as the repository's test file
pins it. -/
def checksumA : String := "0xabCDEF1234567890ABcDEF1234567890aBCDeF12"

/-- Byte form of the address of the repository's second increment test case
and of `TestPrepareQuery`'s contract address. -/
def ownerB : Address :=
  ⟨[0x12, 0x34, 0x56, 0x78, 0x90, 0xab, 0xcd, 0xef, 0x12, 0x34,
    0x56, 0x78, 0x90, 0xab, 0xcd, 0xef, 0x12, 0x34, 0x56, 0x78]⟩

/-- All-uppercase spelling of `ownerB` used in the repository's second
increment test case as the configured tracked address. -/
def upperB : String := "0X1234567890ABCDEF1234567890ABCDEF12345678"

/-- EIP-55 checksummed spelling of `ownerB`, as the repository's
`TestPrepareQuery` pins it. -/
def checksumB : String := "0x1234567890AbcdEF1234567890aBcdef12345678"

/-- Checksummed rendering of `ownerA`, validating the Keccak-256 and EIP-55
embedding against the value the repository's own test file asserts. -/
theorem ownerA_hex : ownerA.hex = checksumA := by decide

/-- Checksummed rendering of `ownerB`, validating the Keccak-256 and EIP-55
embedding against the value the repository's own test file asserts. -/
theorem ownerB_hex : ownerB.hex = checksumB := by decide

/- ===== Helper lemmas on the store ===== -/

theorem mlookup_mapIncr_self (m : List (String × Nat)) (k : String) :
    mlookup (mapIncr m k) k = some ((mlookup m k).getD 0 + 1) := by
  induction m with
  | nil => simp [mlookup, mapIncr]
  | cons kv rest ih =>
    obtain ⟨k0, v⟩ := kv
    by_cases h : k0 = k <;> simp [mlookup, mapIncr, h, ih]

theorem mlookup_mapIncr_other (m : List (String × Nat)) (k k' : String)
    (h : k' ≠ k) : mlookup (mapIncr m k) k' = mlookup m k' := by
  induction m with
  | nil => simp [mlookup, mapIncr, h, Ne.symm h]
  | cons kv rest ih =>
    obtain ⟨k0, v⟩ := kv
    by_cases h0 : k0 = k
    · subst h0
      simp [mlookup, mapIncr, Ne.symm h]
    · by_cases h1 : k0 = k' <;> simp [mlookup, mapIncr, h, h0, h1, ih]

theorem hasKey_mapIncr (m : List (String × Nat)) (k k' : String) :
    hasKey (mapIncr m k) k' = (hasKey m k' || k' == k) := by
  by_cases h : k' = k
  · subst h
    simp [hasKey, mlookup_mapIncr_self]
  · simp [hasKey, mlookup_mapIncr_other m k k' h, h]

theorem processLog_parse_none {A : Type} (u : Log → Bool) (vLog : Log)
    (h : parseEvent u vLog = none) (st : NonceCounter A × Bool) :
    processLog u st vLog = st := by
  simp [processLog, h]

/-- Sample counter mirroring the `TestPrepareQuery` fixture: only the
contract address and the block batch size are populated. -/
def ncSample (batch : Int) : NonceCounter Unit :=
  { contractAddress := checksumB, eventName := "", addresses := [],
    contractAbi := (), addressToNonce := [], blockBatchSize := batch,
    concurrency := 1 }

/-- Fully valid configuration, mirroring the `TestConfigValidate` "valid
config" case. -/
def cfgValid : Config :=
  { Concurrency := 10,
    ContractAddress := "0x1234567890abcdef1234567890abcdef12345678",
    ContractABI := "[]", StartBlock := 0, EventName := "Transfer",
    Addresses := ["0xabcdef1234567890abcdef1234567890abcdef12"],
    BlockBatchSize := 100 }

/- ===== Claim theorems ===== -/

/-- C2: for every counter state and all inputs (cursor, tip) with a positive
block batch size, the block range returned by the scheduler `prepareQuery`
satisfies `from ≤ to` and `to ≤ tip`. -/
theorem prepareQuery_range_invariant {A : Type} (nc : NonceCounter A)
    (tip cursor : Int) (_h : 0 < nc.blockBatchSize) :
    (prepareQuery nc tip cursor).FromBlock ≤ (prepareQuery nc tip cursor).ToBlock ∧
    (prepareQuery nc tip cursor).ToBlock ≤ tip := by
  simp only [prepareQuery]
  split_ifs <;> constructor <;> omega

/-- Witness for `prepareQuery_range_invariant` at cursor 5, tip 20,
batch size 10. -/
theorem prepareQuery_range_invariant_check :
    (prepareQuery (ncSample 10) 20 5).FromBlock ≤ (prepareQuery (ncSample 10) 20 5).ToBlock ∧
    (prepareQuery (ncSample 10) 20 5).ToBlock ≤ 20 :=
  prepareQuery_range_invariant (ncSample 10) 20 5 (by decide)

/-- C3: `prepareQuery` computes exactly the range described by the spec's
scheduler algorithm (tentative end `cursor + batchSize`, clamped at the tip,
cursor clamped down to the end when it has overrun), and the three spec
scenarios evaluate to (5,15), (15,18) and (18,18). -/
theorem prepareQuery_algorithm_and_scenarios :
    (∀ (A : Type) (nc : NonceCounter A) (tip cursor : Int),
      ((prepareQuery nc tip cursor).FromBlock, (prepareQuery nc tip cursor).ToBlock)
        = schedulerSpec cursor tip nc.blockBatchSize)
    ∧ ((prepareQuery (ncSample 10) 20 5).FromBlock,
        (prepareQuery (ncSample 10) 20 5).ToBlock) = (5, 15)
    ∧ ((prepareQuery (ncSample 10) 18 15).FromBlock,
        (prepareQuery (ncSample 10) 18 15).ToBlock) = (15, 18)
    ∧ ((prepareQuery (ncSample 5) 18 20).FromBlock,
        (prepareQuery (ncSample 5) 18 20).ToBlock) = (18, 18) :=
  ⟨fun _ _ _ _ => rfl, by decide, by decide, by decide⟩

/-- C6: `Config.Validate` returns the error of the first violated constraint
in the spec's order (refined by `firstViolation`, written from the spec's
words), succeeds on a fully valid configuration, each of the seven
single-field violations in isolation yields its own field-specific message,
and the seven messages are pairwise distinct (so never a partial list of
several violations: the result type carries at most one message). -/
theorem validate_first_violation_distinct_errors :
    (∀ c : Config, Config.Validate c = firstViolation c)
    ∧ Config.Validate cfgValid = none
    ∧ ([{ cfgValid with Concurrency := 0 }, { cfgValid with ContractAddress := "" },
        { cfgValid with ContractABI := "" }, { cfgValid with StartBlock := -1 },
        { cfgValid with EventName := "" }, { cfgValid with Addresses := [] },
        { cfgValid with BlockBatchSize := 0 }].map Config.Validate
      = [some "concurrency must be greater than 0",
         some "contract address must be provided",
         some "contract ABI must be provided",
         some "start block must be greater than or equal to 0",
         some "event name must be provided",
         some "addresses must be provided",
         some "block batch size must be greater than 0"])
    ∧ List.Pairwise (fun a b => a ≠ b)
        ["concurrency must be greater than 0", "contract address must be provided",
         "contract ABI must be provided", "start block must be greater than or equal to 0",
         "event name must be provided", "addresses must be provided",
         "block batch size must be greater than 0"] := by
  refine ⟨fun c => ?_, by decide, by decide, by decide⟩
  simp [Config.Validate, firstViolation, not_lt, not_le, List.length_eq_zero]

/-- C9: two configurations that both pass validation and differ at most in
`StartBlock` are indistinguishable to `NewNonceCounter`: the constructed
counters are equal, for every ABI parser. The `StartBlock` field is
validated and then never stored or read. -/
theorem startBlock_no_influence {A : Type} (abiJSON : String → Option A)
    (c1 c2 : Config) (h1 : c1.Validate = none) (h2 : c2.Validate = none)
    (hc : c1.Concurrency = c2.Concurrency)
    (ha : c1.ContractAddress = c2.ContractAddress)
    (hb : c1.ContractABI = c2.ContractABI) (he : c1.EventName = c2.EventName)
    (hl : c1.Addresses = c2.Addresses) (hs : c1.BlockBatchSize = c2.BlockBatchSize) :
    NewNonceCounter abiJSON c1 = NewNonceCounter abiJSON c2 := by
  simp only [NewNonceCounter, h1, h2, hc, ha, hb, he, hl, hs]

/-- Witness for `startBlock_no_influence`: the valid sample configuration
with start blocks 0 and 12345. -/
theorem startBlock_no_influence_check :
    NewNonceCounter (fun s => some s) cfgValid
      = NewNonceCounter (fun s => some s) { cfgValid with StartBlock := 12345 } :=
  startBlock_no_influence (fun s => some s) cfgValid
    { cfgValid with StartBlock := 12345 }
    (by decide) (by decide) rfl rfl rfl rfl rfl rfl

/-- C10: `NewNonceCounter` returns an error exactly when validation fails
(so a validated configuration never yields a returned error), and an
unparseable ABI on a validated configuration aborts the process
(`log.Fatalf`, modelled as `NCResult.fatal`) instead of returning an
error. -/
theorem newNonceCounter_err_iff_validate :
    (∀ (A : Type) (abiJSON : String → Option A) (c : Config) (e : String),
      NewNonceCounter abiJSON c = NCResult.err e ↔ c.Validate = some e)
    ∧ (∀ (A : Type) (abiJSON : String → Option A) (c : Config),
      c.Validate = none → abiJSON c.ContractABI = none →
      NewNonceCounter abiJSON c = NCResult.fatal "failed to parse contract ABI") := by
  refine ⟨fun A abiJSON c e => ?_, fun A abiJSON c h1 h2 => ?_⟩
  · unfold NewNonceCounter
    rcases hv : c.Validate with _ | m
    · rcases hj : abiJSON c.ContractABI with _ | a <;> simp
    · simp
  · unfold NewNonceCounter
    rw [h1, h2]

/-- Witness for `newNonceCounter_err_iff_validate`: a configuration with
zero concurrency yields exactly the concurrency error, even under an ABI
parser that always fails. -/
theorem newNonceCounter_err_iff_validate_check :
    NewNonceCounter (fun _ => (none : Option Unit)) { cfgValid with Concurrency := 0 }
      = NCResult.err "concurrency must be greater than 0" :=
  (newNonceCounter_err_iff_validate.1 Unit (fun _ => none)
    { cfgValid with Concurrency := 0 } "concurrency must be greater than 0").mpr
    (by decide)

/-- C5: on a tracked owner (checksummed hex contained in the configured
list), `incrementNonce` reports an update and adds exactly 1 to that
address's count, leaving every other entry unchanged — never a no-op; on an
untracked owner it returns the counter completely unchanged and reports no
update. -/
theorem incrementNonce_tracked_untracked {A : Type} (nc : NonceCounter A)
    (vae : ValidatorAddedEvent) :
    (nc.addresses.contains vae.Owner.hex = true →
      (incrementNonce nc vae).2 = true ∧
      mlookup (incrementNonce nc vae).1.addressToNonce vae.Owner.hex
        = some ((mlookup nc.addressToNonce vae.Owner.hex).getD 0 + 1) ∧
      ∀ k, k ≠ vae.Owner.hex →
        mlookup (incrementNonce nc vae).1.addressToNonce k
          = mlookup nc.addressToNonce k)
    ∧ (nc.addresses.contains vae.Owner.hex = false →
      incrementNonce nc vae = (nc, false)) := by
  constructor
  · intro h
    have hm : vae.Owner.hex ∈ nc.addresses := by simpa using h
    refine ⟨by simp [incrementNonce, h, hm],
      by simp [incrementNonce, h, hm, mlookup_mapIncr_self], ?_⟩
    intro k hk
    simp [incrementNonce, h, hm, mlookup_mapIncr_other _ _ _ hk]
  · intro h
    have hm : vae.Owner.hex ∉ nc.addresses := by simpa using h
    simp [incrementNonce, h, hm]

/-- Sample counter with the tracked address `checksumA` at count 5,
mirroring the first `TestNonceCounterIncrementNonce` case. -/
def ncFive : NonceCounter Unit :=
  { contractAddress := checksumB, eventName := "ValidatorAdded",
    addresses := [checksumA], contractAbi := (),
    addressToNonce := [(checksumA, 5)], blockBatchSize := 50, concurrency := 2 }

/-- Witness for `incrementNonce_tracked_untracked`: a tracked address at
count 5 moves to count 6 and the update is reported. -/
theorem incrementNonce_tracked_untracked_check :
    (incrementNonce ncFive ⟨ownerA⟩).2 = true ∧
    mlookup (incrementNonce ncFive ⟨ownerA⟩).1.addressToNonce checksumA = some 6 := by
  have hx : (ValidatorAddedEvent.mk ownerA).Owner.hex = checksumA := ownerA_hex
  have h := (incrementNonce_tracked_untracked ncFive ⟨ownerA⟩).1 (by rw [hx]; decide)
  refine ⟨h.1, ?_⟩
  have h2 := h.2.1
  rw [hx] at h2
  rw [h2]
  decide

/-- Decode capability used by the decode-failure witness: unpacking
succeeds exactly on logs with non-empty data. -/
def unpackNonEmptyData (vLog : Log) : Bool := !vLog.data.isEmpty

/-- Topic carrying `ownerA` in its last 20 bytes, as an indexed event
argument is laid out in a 32-byte log topic. -/
def topicA : List Nat := List.replicate 12 0 ++ ownerA.bytes

/-- Log whose decode fails under `unpackNonEmptyData`. -/
def logBad : Log := { topics := [List.replicate 32 0, List.replicate 32 0], data := [] }

/-- Log whose decode succeeds under `unpackNonEmptyData`, carrying
`ownerA`. -/
def logGood : Log := { topics := [List.replicate 32 0, topicA], data := [1] }

/-- C7: a log whose decode fails is silently skipped: the per-log step
leaves the counter state and the batch flag exactly unchanged (no error is
produced — the step is total and has no error channel — and the log is not
retried), and the batch containing the failing log computes exactly the
same result as the batch without it, every other log still being
processed. -/
theorem decode_failure_silently_skipped {A : Type} (u : Log → Bool)
    (nc : NonceCounter A) (flag : Bool) (vLog : Log) (pre post : List Log)
    (h : parseEvent u vLog = none) :
    processLog u (nc, flag) vLog = (nc, flag) ∧
    FindNoncesSeq u nc (pre ++ vLog :: post) = FindNoncesSeq u nc (pre ++ post) := by
  refine ⟨processLog_parse_none u vLog h _, ?_⟩
  unfold FindNoncesSeq
  rw [List.foldl_append, List.foldl_append]
  simp only [List.foldl_cons, processLog_parse_none u vLog h]

/-- Witness for `decode_failure_silently_skipped`: the batch
[logGood, logBad] computes the same result as [logGood]. -/
theorem decode_failure_silently_skipped_check :
    processLog unpackNonEmptyData (ncFive, false) logBad = (ncFive, false) ∧
    FindNoncesSeq unpackNonEmptyData ncFive [logGood, logBad]
      = FindNoncesSeq unpackNonEmptyData ncFive [logGood] :=
  decode_failure_silently_skipped unpackNonEmptyData ncFive false logBad
    [logGood] [] (by decide)

/-- Key-set preservation of a single increment: when the store's key set
agrees with the tracked list, `incrementNonce` never adds or removes a
key and never changes the tracked list. -/
theorem incrementNonce_preserves_keys {A : Type} (nc : NonceCounter A)
    (vae : ValidatorAddedEvent)
    (hinv : ∀ k, hasKey nc.addressToNonce k = nc.addresses.contains k) :
    (∀ k, hasKey (incrementNonce nc vae).1.addressToNonce k
        = hasKey nc.addressToNonce k)
    ∧ (incrementNonce nc vae).1.addresses = nc.addresses := by
  cases hc : nc.addresses.contains vae.Owner.hex with
  | false =>
    have hm : vae.Owner.hex ∉ nc.addresses := by simpa using hc
    simp [incrementNonce, hc, hm]
  | true =>
    have hm : vae.Owner.hex ∈ nc.addresses := by simpa using hc
    refine ⟨fun k => ?_, by simp [incrementNonce, hc, hm]⟩
    simp only [incrementNonce]
    rw [if_neg (by simp [hc, hm])]
    rw [hasKey_mapIncr]
    by_cases hk : k = vae.Owner.hex
    · subst hk
      rw [hinv vae.Owner.hex, hc]
      simp
    · simp [hk]

/-- Key-set preservation of any event sequence, given the agreement
invariant. -/
theorem applyEvents_preserves_keys {A : Type} (nc : NonceCounter A)
    (vaes : List ValidatorAddedEvent)
    (hinv : ∀ k, hasKey nc.addressToNonce k = nc.addresses.contains k) :
    ∀ k, hasKey (applyEvents nc vaes).addressToNonce k = hasKey nc.addressToNonce k := by
  induction vaes generalizing nc with
  | nil => intro k; rfl
  | cons vae rest ih =>
    intro k
    have hstep := incrementNonce_preserves_keys nc vae hinv
    have hinv' : ∀ k', hasKey (incrementNonce nc vae).1.addressToNonce k'
        = (incrementNonce nc vae).1.addresses.contains k' := by
      intro k'
      rw [hstep.1 k', hstep.2, hinv k']
    have := ih (incrementNonce nc vae).1 hinv' k
    unfold applyEvents at this ⊢
    simp only [List.foldl_cons]
    rw [this, hstep.1 k]

theorem mlookup_map_zero (l : List String) (a : String) (h : a ∈ l) :
    mlookup (l.map (fun address => (address, 0))) a = some 0 := by
  induction l with
  | nil => cases h
  | cons x rest ih =>
    by_cases hx : x = a
    · simp [mlookup, hx]
    · have h' : a ∈ rest := by
        rcases List.mem_cons.mp h with h1 | h1
        · exact absurd h1.symm hx
        · exact h1
      simp [mlookup, hx, ih h']

theorem hasKey_map_zero (l : List String) (k : String) :
    hasKey (l.map (fun address => (address, 0))) k = l.contains k := by
  induction l with
  | nil => rfl
  | cons x rest ih =>
    by_cases hx : x = k
    · simp [hasKey, mlookup, hx]
    · simp [hasKey, mlookup, hx, Ne.symm hx] at ih ⊢
      exact ih

/-- C8: a counter built by `NewNonceCounter` maps every configured tracked
address to count 0, its store's key set is exactly the configured address
list, and every sequence of increments (and the read-only snapshot, which
is the store itself) preserves that key set: no key is ever added or
removed after construction. -/
theorem counter_store_keys_invariant {A : Type} (abiJSON : String → Option A)
    (cfg : Config) (nc : NonceCounter A)
    (h : NewNonceCounter abiJSON cfg = NCResult.ok nc) :
    (∀ a ∈ cfg.Addresses, mlookup nc.addressToNonce a = some 0)
    ∧ (∀ k, hasKey nc.addressToNonce k = cfg.Addresses.contains k)
    ∧ (∀ (vaes : List ValidatorAddedEvent) (k : String),
        hasKey (printNonces (applyEvents nc vaes)) k = hasKey nc.addressToNonce k) := by
  have hfields : nc.addressToNonce = cfg.Addresses.map (fun address => (address, 0))
      ∧ nc.addresses = cfg.Addresses := by
    unfold NewNonceCounter at h
    rcases hv : cfg.Validate with _ | m
    · rw [hv] at h
      rcases hj : abiJSON cfg.ContractABI with _ | a <;> rw [hj] at h
      · cases h
      · cases h
        exact ⟨rfl, rfl⟩
    · rw [hv] at h; cases h
  refine ⟨fun a ha => ?_, fun k => ?_, fun vaes k => ?_⟩
  · rw [hfields.1]; exact mlookup_map_zero cfg.Addresses a ha
  · rw [hfields.1]; exact hasKey_map_zero cfg.Addresses k
  · have hinv : ∀ k', hasKey nc.addressToNonce k' = nc.addresses.contains k' := by
      intro k'
      rw [hfields.1, hfields.2]
      exact hasKey_map_zero cfg.Addresses k'
    exact applyEvents_preserves_keys nc vaes hinv k

/-- Configuration tracking exactly `checksumA`. -/
def cfgTracked : Config :=
  { Concurrency := 2, ContractAddress := checksumB, ContractABI := "[]",
    StartBlock := 0, EventName := "ValidatorAdded", Addresses := [checksumA],
    BlockBatchSize := 50 }

/-- The counter `NewNonceCounter` builds from `cfgTracked` under the
identity ABI parser. -/
def ncTracked : NonceCounter String :=
  { contractAddress := checksumB, eventName := "ValidatorAdded",
    addresses := [checksumA], contractAbi := "[]",
    addressToNonce := [(checksumA, 0)], blockBatchSize := 50, concurrency := 2 }

/-- Witness for `counter_store_keys_invariant`: after processing one event
the key set at `checksumA` is unchanged. -/
theorem counter_store_keys_invariant_check :
    hasKey (printNonces (applyEvents ncTracked [⟨ownerA⟩])) checksumA
      = hasKey ncTracked.addressToNonce checksumA :=
  (counter_store_keys_invariant (fun s => some s) cfgTracked ncTracked
    (by decide)).2.2 [⟨ownerA⟩] checksumA

/-- Counter configured with the all-uppercase spelling `upperB` of the very
address `ownerB`, at count 3, mirroring the second
`TestNonceCounterIncrementNonce` case. -/
def ncUpper : NonceCounter Unit :=
  { contractAddress := checksumB, eventName := "ValidatorAdded",
    addresses := [upperB], contractAbi := (),
    addressToNonce := [(upperB, 3)], blockBatchSize := 50, concurrency := 2 }

/-- C4 counterexample: the configured spelling `upperB` and the code's
rendering of the owner differ only in letter case (they even decode to the
same 20 bytes), yet `incrementNonce` does not treat them as the same
tracked address: it changes nothing and reports no update, so the
membership test is not case-insensitive. -/
theorem membership_not_case_insensitive :
    eqIgnoreCase upperB (Address.hex ownerB) = true ∧
    hexToAddress upperB = ownerB ∧
    incrementNonce ncUpper ⟨ownerB⟩ = (ncUpper, false) := by
  have hx : (ValidatorAddedEvent.mk ownerB).Owner.hex = checksumB := ownerB_hex
  refine ⟨?_, by decide, ?_⟩
  · rw [ownerB_hex]; decide
  · unfold incrementNonce
    rw [hx]
    decide

/-- C4 amended: the membership test deciding an increment is the exact,
case-sensitive string match `nc.addresses.contains vae.Owner.hex` against
the EIP-55 checksummed rendering of the owner; concretely, the uppercase
spelling of an address does not contain-match its checksummed spelling even
though the two are equal up to letter case. -/
theorem membership_exact_checksummed_match :
    (∀ (A : Type) (nc : NonceCounter A) (vae : ValidatorAddedEvent),
      (incrementNonce nc vae).2 = nc.addresses.contains vae.Owner.hex)
    ∧ [upperB].contains checksumB = false
    ∧ eqIgnoreCase upperB checksumB = true := by
  refine ⟨fun A nc vae => ?_, by decide, by decide⟩
  unfold incrementNonce
  cases hc : nc.addresses.contains vae.Owner.hex <;> simp [hc]

/- ===== C1: the data race of `FindNonces` on the shared flag ===== -/

/-- Log of a decoded `ValidatorAdded` event owned by `ownerA`: topic 1
carries the owner in its last 20 bytes. -/
def raceLog : Log := { topics := [List.replicate 32 0, topicA], data := [1] }

/-- Batch parameters for the race run: `checksumA` is tracked and every log
decodes. -/
def raceParams : SysParams :=
  { addresses := [checksumA], unpackOk := fun _ => true }

/-- State reached by the interleaving exhibited below: both workers have
incremented, both have read the flag as `false`, and both are poised to
write it, with the mutex free. -/
def raceFinal : SysState :=
  { pending := [], workers := [WPhase.toWriteFlag, WPhase.toWriteFlag], sem := 0,
    mutexFree := true, counts := [(checksumA, 2)], found := false }

/-- C1 fails on the code: from the initial state of a batch of two tracked
logs with concurrency 2 there is a reachable state in which two distinct
workers are both about to perform the unguarded write `foundAddress = true`
while neither holds the mutex — the unsynchronized shared-flag access the
claim (and spec section 9) rules out. The increments themselves are not
lost (the reached state already counts both), the flaw is the flag's
unsynchronized read/write. -/
theorem findNonces_found_flag_write_write_race :
    ∃ s : SysState,
      Relation.ReflTransGen (WStep raceParams)
        (initState [(checksumA, 0)] [raceLog, raceLog] 2) s
      ∧ racy s ∧ s.mutexFree = true ∧ s.counts = [(checksumA, 2)] := by
  have hev : parseEvent raceParams.unpackOk raceLog = some ⟨ownerA⟩ := by decide
  have hkey : checksumA = (ValidatorAddedEvent.mk ownerA).Owner.hex := ownerA_hex.symm
  have hcon : raceParams.addresses.contains checksumA = true := by decide
  refine ⟨raceFinal, ?_, ⟨0, 1, by decide, rfl, rfl⟩, rfl, rfl⟩
  refine Relation.ReflTransGen.head (WStep.spawn _ raceLog [raceLog] rfl (by decide)) ?_
  refine Relation.ReflTransGen.head (WStep.spawn _ raceLog [] rfl (by decide)) ?_
  refine Relation.ReflTransGen.head
    (WStep.parseTracked _ 0 raceLog ⟨ownerA⟩ checksumA rfl hev hkey hcon) ?_
  refine Relation.ReflTransGen.head
    (WStep.parseTracked _ 1 raceLog ⟨ownerA⟩ checksumA rfl hev hkey hcon) ?_
  refine Relation.ReflTransGen.head (WStep.lock _ 0 checksumA rfl rfl) ?_
  refine Relation.ReflTransGen.head (WStep.incr _ 0 checksumA rfl) ?_
  refine Relation.ReflTransGen.head (WStep.unlock _ 0 checksumA rfl) ?_
  refine Relation.ReflTransGen.head (WStep.lock _ 1 checksumA rfl rfl) ?_
  refine Relation.ReflTransGen.head (WStep.incr _ 1 checksumA rfl) ?_
  refine Relation.ReflTransGen.head (WStep.unlock _ 1 checksumA rfl) ?_
  refine Relation.ReflTransGen.head (WStep.readFlagClear _ 0 rfl rfl) ?_
  refine Relation.ReflTransGen.head (WStep.readFlagClear _ 1 rfl rfl) ?_
  exact Relation.ReflTransGen.refl

end NounceCounter
